import Mathlib

/-!
Verification of the pipeline-orchestration and coordination core of the
load-testing repository: the stop coordinator (`src/common/managers.py`),
the CSV chunk generator (`src/common/csv_utils.py`), the retrying request
executor, chunked upload pipeline and status poller
(`src/common/API/load_api.py`), and the dashboard handoff pool
(`src/scenarios/tc_load_003_peak.py`).

Each definition is a shallow embedding of the corresponding Python code.
Machine time is idealized: requests and checks take zero time and each
sleep advances the clock by its duration.  Randomness (`random.choice`)
is determinized by an explicit index parameter, and thread interleavings
are represented by explicit call sequences.
-/

/-! ## StopManager (src/common/managers.py, lines 31-121) -/

/-- Lookup in the `_user_iterations` dict; a missing key reads as 0,
mirroring `if user_id not in self._user_iterations: ... = 0`. -/
def uiLookup : List (Nat × Nat) → Nat → Nat
  | [], _ => 0
  | (k, v) :: rest, u => if k = u then v else uiLookup rest u

/-- Update (or insert) a key in the `_user_iterations` dict. -/
def uiSet : List (Nat × Nat) → Nat → Nat → List (Nat × Nat)
  | [], u, v => [(u, v)]
  | (k, w) :: rest, u, v =>
    if k = u then (u, v) :: rest else (k, w) :: uiSet rest u v

/-- The mutable state of `StopManager`. -/
structure StopState where
  total_users : Nat
  iterations_per_user : Nat
  completed_users : Nat
  user_iterations : List (Nat × Nat)
  should_stop : Bool
  stop_called : Bool
deriving DecidableEq

/-- `StopManager.setup_scenario`: resets the per-run state; a `None`
argument is replaced by 1; `iterations_per_user` is re-read from the
configuration (`maxIter` here). -/
def setup_scenario (total : Option Nat) (maxIter : Nat) : StopState :=
  { total_users := total.getD 1
    iterations_per_user := maxIter
    completed_users := 0
    user_iterations := []
    should_stop := false
    stop_called := false }

/-- `StopManager.user_completed_iteration(user_id)`: increments the
caller's iteration count, increments `_completed_users` whenever the
caller's count has reached the quota, and latches `_should_stop` on the
first call where `_completed_users >= _total_users`.  Returns the new
state together with `(user_finished, global_stop)`. -/
def user_completed_iteration (s : StopState) (uid : Nat) :
    StopState × Bool × Bool :=
  let newCount := uiLookup s.user_iterations uid + 1
  let ui := uiSet s.user_iterations uid newCount
  let user_finished := decide (s.iterations_per_user ≤ newCount)
  let completed :=
    if user_finished then s.completed_users + 1 else s.completed_users
  let global_stop := decide (s.total_users ≤ completed)
  let should :=
    if global_stop && !s.should_stop then true else s.should_stop
  ({ s with
      user_iterations := ui
      completed_users := completed
      should_stop := should },
   user_finished, global_stop)

/-- A serialized sequence of `user_completed_iteration` calls (the mutex
in the source serializes all calls, so any concurrent execution is some
such sequence). -/
def runCalls (s : StopState) (calls : List Nat) : StopState :=
  calls.foldl (fun t u => (user_completed_iteration t u).1) s

/-! ## split_csv_generator (src/common/csv_utils.py, lines 6-42) -/

/-- One chunk yielded by the generator (the `size_bytes` field is
`len(chunk_text)` and is omitted as derived data). -/
structure CsvChunk where
  chunk_number : Nat
  chunk_text : List Char
deriving DecidableEq

/-- `str.rfind("\n")`: index of the last newline, if any. -/
def lastNewlinePos : List Char → Option Nat
  | [] => none
  | c :: rest =>
    match lastNewlinePos rest with
    | some i => some (i + 1)
    | none => if c = '\n' then some 0 else none

/-- The generator loop of `split_csv_generator`.  `rem` is the not yet
read part of the file, `leftover` the carried-over partial line, `num`
the next chunk number.  `file.read(cs)` is `rem.take cs`; the fuel
argument is a termination bound only (a fuel of `rem.length + 1` is
never exhausted when `0 < cs`). -/
def splitCsvAux (cs : Nat) : Nat → List Char → List Char → Nat → List CsvChunk
  | 0, _, _, _ => []
  | _fuel + 1, rem, leftover, num =>
    let chunkData := rem.take cs
    if chunkData.isEmpty then
      if leftover.isEmpty then [] else [⟨num, leftover⟩]
    else
      let text := leftover ++ chunkData
      match lastNewlinePos text with
      | some i =>
        ⟨num, text.take (i + 1)⟩ ::
          splitCsvAux cs _fuel (rem.drop cs) (text.drop (i + 1)) (num + 1)
      | none => splitCsvAux cs _fuel (rem.drop cs) text num

/-- `split_csv_generator(file_path, chunk_size)` on an existing file
whose content is `content` (the missing-file branch yields `None` and is
outside this model). -/
def split_csv_generator (content : List Char) (cs : Nat) : List CsvChunk :=
  splitCsvAux cs (content.length + 1) content [] 1

/-- Concatenation of the chunk texts. -/
def joinTexts (l : List CsvChunk) : List Char :=
  (l.map CsvChunk.chunk_text).flatten

/-- Whether a piece of text ends in a newline character. -/
def endsWithNewline (l : List Char) : Bool :=
  match l.getLast? with
  | some c => c = '\n'
  | none => false

/-! ## Api._retry_request (src/common/API/load_api.py, lines 70-133) -/

/-- Outcome of one attempt of the wrapped call: a response with a status
code, or a raised transport fault. -/
inductive AttemptOutcome
  | resp (status_code : Nat)
  | fault
deriving DecidableEq

/-- An attempt that does not terminate the loop: a server error (status
at least 500) or a raised fault. -/
def isRetriable : AttemptOutcome → Bool
  | .resp s => decide (500 ≤ s)
  | .fault => true

/-- Observable behaviour of `_retry_request`: the returned value (the
status code of the returned response, or `none` for the `None`
sentinel), the number of attempts performed, and the list of back-off
sleep durations in order. -/
structure RetryTrace where
  result : Option Nat
  attemptsMade : Nat
  sleeps : List Nat
deriving DecidableEq

/-- The `for attempt in range(max_retries)` loop of `_retry_request`.
`outs` lists the outcomes the wrapped call would produce on successive
attempts, `idx` is the current attempt index and `total` the configured
`max_retries`.  A status below 400 returns the response; a 400-499
status marks the response failed and returns it; a 500+ status or a
fault falls through to the back-off sleep
`min(retry_delay * 2 ** attempt, 10)`, skipped on the last attempt. -/
def retryLoop (retryDelay total : Nat) : List AttemptOutcome → Nat → RetryTrace
  | [], _ => ⟨none, 0, []⟩
  | o :: rest, idx =>
    match o with
    | .resp s =>
      if s < 400 then ⟨some s, 1, []⟩
      else if s < 500 then ⟨some s, 1, []⟩
      else
        let tail := retryLoop retryDelay total rest (idx + 1)
        let sl := if idx < total - 1 then [min (retryDelay * 2 ^ idx) 10] else []
        ⟨tail.result, tail.attemptsMade + 1, sl ++ tail.sleeps⟩
    | .fault =>
      let tail := retryLoop retryDelay total rest (idx + 1)
      let sl := if idx < total - 1 then [min (retryDelay * 2 ^ idx) 10] else []
      ⟨tail.result, tail.attemptsMade + 1, sl ++ tail.sleeps⟩

/-- `_retry_request` with `max_retries = outcomes.length` scripted
attempt outcomes; falling off the loop returns the `None` sentinel. -/
def retry_request (retryDelay : Nat) (outcomes : List AttemptOutcome) : RetryTrace :=
  retryLoop retryDelay outcomes.length outcomes 0

/-! ## Api._upload_chunks (src/common/API/load_api.py, lines 262-350) -/

/-- One chunk as seen by `_upload_chunks`: whether it is truthy with a
non-empty `chunk_text` (otherwise the loop `continue`s past it), and the
outcome of each outer upload attempt for it (`attempts i = true` when
the `_retry_request` call of attempt `i` returns an ok response;
`false` covers a `None`/non-ok response and a raised exception alike,
both of which fall through to the next attempt). -/
structure ChunkSpec where
  nonempty : Bool
  attempts : Nat → Bool

/-- The inner `for attempt in range(max_retries)` loop of
`_upload_chunks`: stops with `true` at the first ok attempt (`break`),
with `false` once the budget is exhausted. -/
def chunkUploadLoop (att : Nat → Bool) : Nat → Nat → Bool
  | 0, _ => false
  | r + 1, i => if att i then true else chunkUploadLoop att r (i + 1)

/-- Whether a chunk is uploaded within the `max_retries` budget. -/
def chunkUploadSucceeds (maxRetries : Nat) (att : Nat → Bool) : Bool :=
  chunkUploadLoop att maxRetries 0

/-- `_upload_chunks`: iterates over the produced chunks, counting
`uploaded_chunks`; a chunk whose budget is exhausted is logged and the
loop continues with the next chunk; the whole body is wrapped in
`try/finally` and no exception escapes, so the function always returns
the final count. -/
def upload_chunks (maxRetries : Nat) : List ChunkSpec → Nat
  | [] => 0
  | c :: rest =>
    if c.nonempty && chunkUploadSucceeds maxRetries c.attempts then
      upload_chunks maxRetries rest + 1
    else
      upload_chunks maxRetries rest

/-! ## Api._monitor_processing_status (src/common/API/load_api.py, lines 438-583)
    and Api._validate_row_count (lines 585-640) -/

/-- Parsed job status, as read from the status response. -/
inductive PStatus
  | success | failed | pending | running | scheduled | unknown
deriving DecidableEq

/-- Outcome of one status request: an ok response carrying a parsed
status, or a missing/non-ok response (`errResp`), which the loop merely
logs before sleeping. -/
inductive ScriptResp
  | ok (st : PStatus)
  | errResp
deriving DecidableEq

/-- A response that does not terminate the polling loop. -/
def nonTerminalResp : ScriptResp → Bool
  | .ok .success => false
  | .ok .failed => false
  | _ => true

/-- The response to the row-count validation query: HTTP status code and
the `count()` value of the first data row, if the `data` array is
non-empty. -/
structure ValResp where
  status_code : Nat
  firstCount : Option Nat
deriving DecidableEq

/-- `_validate_row_count`: true iff the query succeeded (status 200,
non-empty data) and the counted rows equal the expected count; every
failure path, including a raised exception, returns `False`. -/
def validate_row_count : Option ValResp → Nat → Bool
  | some r, expected =>
    if r.status_code = 200 then
      match r.firstCount with
      | some c => decide (c = expected)
      | none => false
    else false
  | none, _ => false

/-- Observable outcome of `_monitor_processing_status`: which return
site was taken, how many status polls and poll-interval sleeps were
performed, and (for the success site) the recorded row-count validation
result, if one was performed.  `success` models both `return True` and
the PM-flow `return {"success": True, ...}`; `failedStatus`,
`stopShort` and `timedOut` all model `return False` from their
respective sites.  `fuelOut` is a modelling artifact never reached with
a positive poll interval. -/
inductive MonOutcome
  | success (polls sleeps : Nat) (validationRecorded : Option Bool)
  | failedStatus (polls sleeps : Nat)
  | stopShort (polls sleeps : Nat)
  | timedOut (polls sleeps : Nat)
  | fuelOut (polls sleeps : Nat)
deriving DecidableEq

/-- The `while time.time() - start_time < max_wait_time` loop.  Time is
idealized: requests are instantaneous and each sleep advances `t` by
`interval`.  `stopSig n` is the value of `stop_manager.is_stop_called()`
observed at the start of the iteration following `n` polls; `script n`
is the outcome of the `n`-th status request (0-based).  On a success
status of a file flow with validation inputs present (`doValidate`),
`_validate_row_count` runs against `valResp`/`expected` and its result
is recorded (log/metric) before `return True`. -/
def monitorLoop (interval maxWait : Nat) (stopSig : Nat → Bool)
    (script : Nat → ScriptResp) (doValidate : Bool)
    (valResp : Option ValResp) (expected : Nat) :
    Nat → Nat → Nat → Nat → MonOutcome
  | 0, _, polls, sleeps => .fuelOut polls sleeps
  | fuel + 1, t, polls, sleeps =>
    if t < maxWait then
      if stopSig polls then .stopShort polls sleeps
      else
        match script polls with
        | .ok .success =>
          .success (polls + 1) sleeps
            (if doValidate then some (validate_row_count valResp expected) else none)
        | .ok .failed => .failedStatus (polls + 1) sleeps
        | _ =>
          monitorLoop interval maxWait stopSig script doValidate valResp expected
            fuel (t + interval) (polls + 1) (sleeps + 1)
    else .timedOut polls sleeps

/-- `_monitor_processing_status` with `pollInterval = interval` and
`maxWait` the timeout; the fuel `maxWait + 1` is a termination bound
only and is never exhausted when `0 < interval`. -/
def monitor_processing_status (interval maxWait : Nat) (stopSig : Nat → Bool)
    (script : Nat → ScriptResp) (doValidate : Bool)
    (valResp : Option ValResp) (expected : Nat) : MonOutcome :=
  monitorLoop interval maxWait stopSig script doValidate valResp expected
    (maxWait + 1) 0 0 0

/-- Erase the recorded validation result from an outcome, for stating
that the rest of the outcome does not depend on the validation. -/
def stripVal : MonOutcome → MonOutcome
  | .success p s _ => .success p s none
  | o => o

/-- The scripted response sequence `[pending, pending, success]` of the
StatusPoller test property (polls beyond the third would also see
success, but the loop never issues them). -/
def scriptPPS : Nat → ScriptResp :=
  fun n => if n < 2 then .ok .pending else .ok .success

/-- A stop signal that is never set. -/
def noStop : Nat → Bool := fun _ => false

/-! ## DashboardPool (src/scenarios/tc_load_003_peak.py, lines 34-81) -/

/-- One entry of `self.dashboards`: `(url, owner_username, created_timestamp)`. -/
structure DashEntry where
  url : String
  owner : String
  created : Nat
deriving DecidableEq

/-- `DashboardPool.add`: appends under the lock. -/
def pool_add (pool : List DashEntry) (u owner : String) (now : Nat) : List DashEntry :=
  pool ++ [⟨u, owner, now⟩]

/-- `DashboardPool.get_random`: `random.choice(self.dashboards)[0]` when
the pool is non-empty, `None` otherwise.  The random draw is
determinized by the index `k` reduced modulo the pool size (every value
`random.choice` can produce is `pool.get? (k % pool.length)` for some
`k`, and conversely). -/
def get_random (pool : List DashEntry) (k : Nat) : Option String :=
  (pool.get? (k % pool.length)).map DashEntry.url

/-- `DashboardPool.has_dashboards`. -/
def has_dashboards (pool : List DashEntry) : Bool :=
  decide (0 < pool.length)

/-- The `while not self.has_dashboards()` loop of
`wait_until_available`: `poolAt n` is the pool contents observed at the
`n`-th check (the pool may grow between checks), each sleep lasts 5
units and `n` counts the sleeps performed, so elapsed time at the `n`-th
check is `5 * n`.  Returns the result together with the number of
sleeps performed. -/
def wait_until_available_loop (poolAt : Nat → List DashEntry) (timeLimit : Nat) :
    Nat → Nat → Bool × Nat
  | 0, n => (false, n)
  | fuel + 1, n =>
    if has_dashboards (poolAt n) then (true, n)
    else if timeLimit < 5 * n then (false, n)
    else wait_until_available_loop poolAt timeLimit fuel (n + 1)

/-- `DashboardPool.wait_until_available(timeout)`; the fuel
`timeLimit / 5 + 1 + 1` is a termination bound only and covers every
check the loop can reach before the time limit triggers. -/
def wait_until_available (poolAt : Nat → List DashEntry) (timeLimit : Nat) :
    Bool × Nat :=
  wait_until_available_loop poolAt timeLimit (timeLimit / 5 + 1 + 1) 0

/-! ## Lemmas about StopManager -/

theorem uiLookup_uiSet_self (l : List (Nat × Nat)) (u v : Nat) :
    uiLookup (uiSet l u v) u = v := by
  induction l with
  | nil => simp [uiSet, uiLookup]
  | cons p rest ih =>
    obtain ⟨k, w⟩ := p
    by_cases h : k = u
    · simp [uiSet, uiLookup, h]
    · simp [uiSet, uiLookup, h, ih]

theorem uiLookup_uiSet_ne (l : List (Nat × Nat)) (u v w : Nat) (h : w ≠ u) :
    uiLookup (uiSet l u v) w = uiLookup l w := by
  induction l with
  | nil => simp [uiSet, uiLookup, Ne.symm h]
  | cons p rest ih =>
    obtain ⟨k, w'⟩ := p
    by_cases hk : k = u
    · subst hk
      simp [uiSet, uiLookup, Ne.symm h]
    · by_cases hw : k = w
      · simp [uiSet, uiLookup, hk, hw, h]
      · simp [uiSet, uiLookup, hk, hw, ih]

theorem step_total_users (s : StopState) (u : Nat) :
    ((user_completed_iteration s u).1).total_users = s.total_users := rfl

theorem step_quota (s : StopState) (u : Nat) :
    ((user_completed_iteration s u).1).iterations_per_user =
      s.iterations_per_user := rfl

theorem step_ui (s : StopState) (u : Nat) :
    ((user_completed_iteration s u).1).user_iterations =
      uiSet s.user_iterations u (uiLookup s.user_iterations u + 1) := rfl

theorem step_completed (s : StopState) (u : Nat) :
    ((user_completed_iteration s u).1).completed_users =
      if s.iterations_per_user ≤ uiLookup s.user_iterations u + 1
      then s.completed_users + 1 else s.completed_users := by
  unfold user_completed_iteration
  dsimp only
  simp

theorem step_should_stop (s : StopState) (u : Nat) :
    ((user_completed_iteration s u).1).should_stop =
      (s.should_stop ||
        decide (s.total_users ≤ ((user_completed_iteration s u).1).completed_users)) := by
  unfold user_completed_iteration
  dsimp only
  cases hS : s.should_stop <;> simp [hS]

theorem runCalls_nil (s : StopState) : runCalls s [] = s := rfl

theorem runCalls_cons (s : StopState) (u : Nat) (calls : List Nat) :
    runCalls s (u :: calls) = runCalls ((user_completed_iteration s u).1) calls := rfl

theorem runCalls_append (s : StopState) (l₁ l₂ : List Nat) :
    runCalls s (l₁ ++ l₂) = runCalls (runCalls s l₁) l₂ := by
  simp [runCalls, List.foldl_append]

theorem runCalls_total_users (calls : List Nat) : ∀ s : StopState,
    (runCalls s calls).total_users = s.total_users := by
  induction calls with
  | nil => intro s; rfl
  | cons u rest ih =>
    intro s
    rw [runCalls_cons, ih, step_total_users]

theorem runCalls_quota (calls : List Nat) : ∀ s : StopState,
    (runCalls s calls).iterations_per_user = s.iterations_per_user := by
  induction calls with
  | nil => intro s; rfl
  | cons u rest ih =>
    intro s
    rw [runCalls_cons, ih, step_quota]

theorem step_completed_mono (s : StopState) (u : Nat) :
    s.completed_users ≤ ((user_completed_iteration s u).1).completed_users := by
  rw [step_completed]
  split <;> omega

theorem runCalls_completed_mono (calls : List Nat) : ∀ s : StopState,
    s.completed_users ≤ (runCalls s calls).completed_users := by
  induction calls with
  | nil => intro s; exact Nat.le_refl _
  | cons u rest ih =>
    intro s
    rw [runCalls_cons]
    exact Nat.le_trans (step_completed_mono s u) (ih _)

theorem step_should_persist (s : StopState) (u : Nat)
    (h : s.should_stop = true) :
    ((user_completed_iteration s u).1).should_stop = true := by
  rw [step_should_stop, h, Bool.true_or]

theorem runCalls_should_persist (calls : List Nat) : ∀ s : StopState,
    s.should_stop = true → (runCalls s calls).should_stop = true := by
  induction calls with
  | nil => intro s h; exact h
  | cons u rest ih =>
    intro s h
    rw [runCalls_cons]
    exact ih _ (step_should_persist s u h)

theorem runCalls_should_stop_iff (calls : List Nat) : ∀ s : StopState,
    calls ≠ [] →
    (runCalls s calls).should_stop =
      (s.should_stop ||
        decide (s.total_users ≤ (runCalls s calls).completed_users)) := by
  induction calls with
  | nil => intro s h; exact absurd rfl h
  | cons u rest ih =>
    intro s _
    cases rest with
    | nil => exact step_should_stop s u
    | cons v rs =>
      rw [runCalls_cons, ih _ (by simp), step_should_stop, step_total_users]
      by_cases h₁ :
          s.total_users ≤ ((user_completed_iteration s u).1).completed_users
      · have h₂ : s.total_users ≤
            (runCalls ((user_completed_iteration s u).1) (v :: rs)).completed_users :=
          Nat.le_trans h₁ (runCalls_completed_mono _ _)
        rw [runCalls_cons] at h₂
        simp [h₁, h₂, runCalls_cons]
      · simp [h₁, runCalls_cons]

theorem runCalls_completed_bound (calls : List Nat) : ∀ s : StopState,
    1 ≤ s.iterations_per_user →
    (∀ u, uiLookup s.user_iterations u + calls.count u ≤ s.iterations_per_user) →
    (runCalls s calls).completed_users ≤ s.completed_users + calls.dedup.length := by
  induction calls with
  | nil =>
    intro s _ _
    simp [runCalls]
  | cons u rest ih =>
    intro s h1 h2
    rw [runCalls_cons]
    have hcu := h2 u
    rw [List.count_cons_self] at hcu
    have h1' : 1 ≤ ((user_completed_iteration s u).1).iterations_per_user := by
      rw [step_quota]; exact h1
    by_cases hf : s.iterations_per_user ≤ uiLookup s.user_iterations u + 1
    · -- the caller reaches its quota on this call
      have hc0 : rest.count u = 0 := by omega
      have hmem : u ∉ rest := List.count_eq_zero.mp hc0
      have h2' : ∀ v,
          uiLookup ((user_completed_iteration s u).1).user_iterations v + rest.count v ≤
            ((user_completed_iteration s u).1).iterations_per_user := by
        intro v
        rw [step_quota, step_ui]
        by_cases hv : v = u
        · subst hv
          rw [uiLookup_uiSet_self, hc0]
          omega
        · rw [uiLookup_uiSet_ne _ _ _ _ hv]
          have := h2 v
          rw [List.count_cons_of_ne hv] at this
          exact this
      have := ih _ h1' h2'
      rw [step_completed, if_pos hf] at this
      rw [List.dedup_cons_of_not_mem hmem]
      simp only [List.length_cons]
      omega
    · have h2' : ∀ v,
          uiLookup ((user_completed_iteration s u).1).user_iterations v + rest.count v ≤
            ((user_completed_iteration s u).1).iterations_per_user := by
        intro v
        rw [step_quota, step_ui]
        by_cases hv : v = u
        · subst hv
          rw [uiLookup_uiSet_self]
          omega
        · rw [uiLookup_uiSet_ne _ _ _ _ hv]
          have := h2 v
          rw [List.count_cons_of_ne hv] at this
          exact this
      have := ih _ h1' h2'
      rw [step_completed, if_neg hf] at this
      by_cases hmem : u ∈ rest
      · rw [List.dedup_cons_of_mem hmem]
        omega
      · rw [List.dedup_cons_of_not_mem hmem]
        simp only [List.length_cons]
        omega

/-- C1 (amended): after `setup_scenario(N)` with quota
`iterations_per_user = quota`, along every serialized sequence of
`user_completed_iteration` calls the completed-users counter is
monotonic non-decreasing and the stop-requested flag, once set, is never
reset (so it transitions false to true at most once); provided the quota
is at least 1, each actor calls at most `quota` times, and at most `N`
distinct actors appear, the counter never exceeds `N`; and for a
non-empty sequence the flag ends set exactly when the counter has
reached `N`. -/
theorem C1_stop_coordinator (N quota : Nat) (calls l₁ l₂ : List Nat) :
    (calls = l₁ ++ l₂ →
      (runCalls (setup_scenario (some N) quota) l₁).completed_users ≤
        (runCalls (setup_scenario (some N) quota) calls).completed_users) ∧
    (calls = l₁ ++ l₂ →
      (runCalls (setup_scenario (some N) quota) l₁).should_stop = true →
      (runCalls (setup_scenario (some N) quota) calls).should_stop = true) ∧
    (1 ≤ quota → (∀ u ∈ calls, calls.count u ≤ quota) →
      calls.dedup.length ≤ N →
      (runCalls (setup_scenario (some N) quota) calls).completed_users ≤ N) ∧
    (calls ≠ [] →
      ((runCalls (setup_scenario (some N) quota) calls).should_stop = true ↔
        N ≤ (runCalls (setup_scenario (some N) quota) calls).completed_users)) := by
  refine ⟨?_, ?_, ?_, ?_⟩
  · rintro rfl
    rw [runCalls_append]
    exact runCalls_completed_mono _ _
  · rintro rfl h
    rw [runCalls_append]
    exact runCalls_should_persist _ _ h
  · intro hq hcount hN
    have hc : ∀ u,
        uiLookup (setup_scenario (some N) quota).user_iterations u + calls.count u ≤
          (setup_scenario (some N) quota).iterations_per_user := by
      intro u
      by_cases hu : u ∈ calls
      · simpa [setup_scenario, uiLookup] using hcount u hu
      · simp [setup_scenario, uiLookup, List.count_eq_zero.mpr hu]
    have := runCalls_completed_bound calls (setup_scenario (some N) quota)
      (by simpa [setup_scenario] using hq) hc
    have h0 : (setup_scenario (some N) quota).completed_users = 0 := rfl
    rw [h0] at this
    omega
  · intro hne
    rw [runCalls_should_stop_iff calls _ hne]
    simp [setup_scenario, runCalls_total_users]

/-- C1 counterexample: with `setup_scenario(1)` and quota 1, the single
actor 0 calling `user_completed_iteration` twice drives the
completed-users counter to 2, exceeding `N = 1`: the claim's bound over
every call sequence fails on the code. -/
theorem C1_counterexample :
    (runCalls (setup_scenario (some 1) 1) [0, 0]).completed_users = 2 ∧
    ¬ ((runCalls (setup_scenario (some 1) 1) [0, 0]).completed_users ≤ 1) := by
  decide

/-- C1 witness: the amended theorem applied to `N = 2`, quota 2 and the
call sequence `[5, 5, 7, 7]`. -/
theorem C1_witness :
    (runCalls (setup_scenario (some 2) 2) [5, 5]).completed_users ≤
      (runCalls (setup_scenario (some 2) 2) [5, 5, 7, 7]).completed_users ∧
    (runCalls (setup_scenario (some 2) 2) [5, 5, 7, 7]).completed_users ≤ 2 ∧
    ((runCalls (setup_scenario (some 2) 2) [5, 5, 7, 7]).should_stop = true ↔
      2 ≤ (runCalls (setup_scenario (some 2) 2) [5, 5, 7, 7]).completed_users) :=
  ⟨(C1_stop_coordinator 2 2 [5, 5, 7, 7] [5, 5] [7, 7]).1 rfl,
   (C1_stop_coordinator 2 2 [5, 5, 7, 7] [5, 5] [7, 7]).2.2.1 (by decide)
     (by decide) (by decide),
   (C1_stop_coordinator 2 2 [5, 5, 7, 7] [5, 5] [7, 7]).2.2.2 (by decide)⟩

/-! ## Lemmas about split_csv_generator -/

theorem joinTexts_nil : joinTexts [] = [] := rfl

theorem joinTexts_cons (c : CsvChunk) (l : List CsvChunk) :
    joinTexts (c :: l) = c.chunk_text ++ joinTexts l := by
  simp [joinTexts]

theorem splitCsvAux_nil (cs f num : Nat) (leftover : List Char) :
    splitCsvAux cs (f + 1) [] leftover num =
      if leftover.isEmpty then [] else [⟨num, leftover⟩] := by
  simp [splitCsvAux]

theorem splitCsvAux_cons_some (k f : Nat) (a : Char) (rs leftover : List Char)
    (num i : Nat) (hnl : lastNewlinePos (leftover ++ a :: rs.take k) = some i) :
    splitCsvAux (k + 1) (f + 1) (a :: rs) leftover num =
      ⟨num, (leftover ++ a :: rs.take k).take (i + 1)⟩ ::
        splitCsvAux (k + 1) f (rs.drop k)
          ((leftover ++ a :: rs.take k).drop (i + 1)) (num + 1) := by
  simp [splitCsvAux, List.take_succ_cons, List.drop_succ_cons, hnl]

theorem splitCsvAux_cons_none (k f : Nat) (a : Char) (rs leftover : List Char)
    (num : Nat) (hnl : lastNewlinePos (leftover ++ a :: rs.take k) = none) :
    splitCsvAux (k + 1) (f + 1) (a :: rs) leftover num =
      splitCsvAux (k + 1) f (rs.drop k) (leftover ++ a :: rs.take k) num := by
  simp [splitCsvAux, List.take_succ_cons, List.drop_succ_cons, hnl]

theorem splitCsvAux_join (cs : Nat) (hcs : 0 < cs) :
    ∀ (fuel : Nat) (rem leftover : List Char) (num : Nat),
      rem.length < fuel →
      joinTexts (splitCsvAux cs fuel rem leftover num) = leftover ++ rem := by
  intro fuel
  induction fuel with
  | zero => intro rem leftover num h; omega
  | succ f ih =>
    intro rem leftover num h
    cases rem with
    | nil =>
      cases leftover with
      | nil => simp [splitCsvAux_nil, joinTexts]
      | cons x xs => simp [splitCsvAux_nil, joinTexts]
    | cons a rs =>
      obtain ⟨k, rfl⟩ : ∃ k, cs = k + 1 := ⟨cs - 1, by omega⟩
      have h' : rs.length < f := by
        rw [List.length_cons] at h
        omega
      have hlen : (rs.drop k).length < f := by
        simp only [List.length_drop]
        omega
      cases hnl : lastNewlinePos (leftover ++ a :: rs.take k) with
      | some i =>
        rw [splitCsvAux_cons_some k f a rs leftover num i hnl, joinTexts_cons,
          ih _ _ _ hlen]
        rw [← List.append_assoc, List.take_append_drop]
        simp [List.append_assoc]
      | none =>
        rw [splitCsvAux_cons_none k f a rs leftover num hnl, ih _ _ _ hlen]
        simp [List.append_assoc]

theorem splitCsvAux_numbers (cs : Nat) (hcs : 0 < cs) :
    ∀ (fuel : Nat) (rem leftover : List Char) (num : Nat),
      rem.length < fuel →
      (splitCsvAux cs fuel rem leftover num).map CsvChunk.chunk_number =
        List.range' num (splitCsvAux cs fuel rem leftover num).length := by
  intro fuel
  induction fuel with
  | zero => intro rem leftover num h; exact absurd h (by omega)
  | succ f ih =>
    intro rem leftover num h
    cases rem with
    | nil =>
      cases leftover with
      | nil => simp [splitCsvAux_nil]
      | cons x xs => simp [splitCsvAux_nil, List.range']
    | cons a rs =>
      obtain ⟨k, rfl⟩ : ∃ k, cs = k + 1 := ⟨cs - 1, by omega⟩
      have h' : rs.length < f := by
        rw [List.length_cons] at h
        omega
      have hlen : (rs.drop k).length < f := by
        simp only [List.length_drop]
        omega
      cases hnl : lastNewlinePos (leftover ++ a :: rs.take k) with
      | some i =>
        rw [splitCsvAux_cons_some k f a rs leftover num i hnl]
        simp only [List.map_cons, List.length_cons, List.range'_succ]
        rw [ih _ _ _ hlen]
      | none =>
        rw [splitCsvAux_cons_none k f a rs leftover num hnl]
        exact ih _ _ _ hlen

theorem lastNewlinePos_getElem (l : List Char) :
    ∀ i, lastNewlinePos l = some i → l[i]? = some '\n' := by
  induction l with
  | nil => intro i h; simp [lastNewlinePos] at h
  | cons c rest ih =>
    intro i h
    simp only [lastNewlinePos] at h
    cases hr : lastNewlinePos rest with
    | some j =>
      rw [hr] at h
      simp only [Option.some.injEq] at h
      rw [← h]
      simpa using ih j hr
    | none =>
      rw [hr] at h
      by_cases hc : c = '\n'
      · rw [if_pos hc] at h
        simp only [Option.some.injEq] at h
        rw [← h]
        simp [hc]
      · rw [if_neg hc] at h
        exact absurd h (by simp)

theorem endsWithNewline_take (text : List Char) (i : Nat)
    (h : text[i]? = some '\n') :
    endsWithNewline (text.take (i + 1)) = true := by
  rw [List.take_succ, h]
  simp [endsWithNewline, Option.toList]

theorem mem_dropLast_cons {α : Type} {c x : α} {l : List α}
    (h : c ∈ (x :: l).dropLast) : c = x ∨ c ∈ l.dropLast := by
  cases l with
  | nil => simp [List.dropLast] at h
  | cons y ys =>
    have e : (x :: y :: ys).dropLast = x :: (y :: ys).dropLast := rfl
    rw [e] at h
    exact List.mem_cons.mp h

theorem splitCsvAux_dropLast_newline (cs : Nat) (hcs : 0 < cs) :
    ∀ (fuel : Nat) (rem leftover : List Char) (num : Nat),
      rem.length < fuel →
      ∀ c ∈ (splitCsvAux cs fuel rem leftover num).dropLast,
        endsWithNewline c.chunk_text = true := by
  intro fuel
  induction fuel with
  | zero => intro rem leftover num h; exact absurd h (by omega)
  | succ f ih =>
    intro rem leftover num h c hc
    cases rem with
    | nil =>
      rw [splitCsvAux_nil] at hc
      by_cases hl : leftover.isEmpty <;> simp [hl] at hc
    | cons a rs =>
      obtain ⟨k, rfl⟩ : ∃ k, cs = k + 1 := ⟨cs - 1, by omega⟩
      have h' : rs.length < f := by
        rw [List.length_cons] at h
        omega
      have hlen : (rs.drop k).length < f := by
        simp only [List.length_drop]
        omega
      cases hnl : lastNewlinePos (leftover ++ a :: rs.take k) with
      | some i =>
        rw [splitCsvAux_cons_some k f a rs leftover num i hnl] at hc
        rcases mem_dropLast_cons hc with hcx | hcm
        · rw [hcx]
          exact endsWithNewline_take _ i (lastNewlinePos_getElem _ i hnl)
        · exact ih _ _ _ hlen c hcm
      | none =>
        rw [splitCsvAux_cons_none k f a rs leftover num hnl] at hc
        exact ih _ _ _ hlen c hc

/-- C6: for every existing input file (content `content`) and positive
chunk size, concatenating the `chunk_text` fields of all chunks yielded
by `split_csv_generator` reproduces the file content exactly, and the
`chunk_number` fields are exactly the gapless, strictly increasing
sequence `1..n`. -/
theorem C6_chunking_round_trip (content : List Char) (cs : Nat) (hcs : 0 < cs) :
    joinTexts (split_csv_generator content cs) = content ∧
    (split_csv_generator content cs).map CsvChunk.chunk_number =
      List.range' 1 (split_csv_generator content cs).length := by
  constructor
  · have := splitCsvAux_join cs hcs (content.length + 1) content [] 1 (by omega)
    simpa [split_csv_generator] using this
  · exact splitCsvAux_numbers cs hcs (content.length + 1) content [] 1 (by omega)

/-- C6 witness: the round trip evaluated on the 7-character content
`"ab\ncd\ne"` with chunk size 3, which yields chunks
`"ab\n"`, `"cd\n"`, `"e"` numbered 1, 2, 3. -/
theorem C6_witness :
    joinTexts (split_csv_generator ['a', 'b', '\n', 'c', 'd', '\n', 'e'] 3) =
      ['a', 'b', '\n', 'c', 'd', '\n', 'e'] ∧
    (split_csv_generator ['a', 'b', '\n', 'c', 'd', '\n', 'e'] 3).map
        CsvChunk.chunk_number =
      List.range' 1
        (split_csv_generator ['a', 'b', '\n', 'c', 'd', '\n', 'e'] 3).length :=
  C6_chunking_round_trip ['a', 'b', '\n', 'c', 'd', '\n', 'e'] 3 (by decide)

/-- C10: every chunk yielded by `split_csv_generator`, except possibly
the last one, has a `chunk_text` ending in a newline character, so no
input line is split across two chunks. -/
theorem C10_chunk_boundary (content : List Char) (cs : Nat) (hcs : 0 < cs) :
    ∀ c ∈ (split_csv_generator content cs).dropLast,
      endsWithNewline c.chunk_text = true :=
  fun c hc =>
    splitCsvAux_dropLast_newline cs hcs (content.length + 1) content [] 1
      (by omega) c hc

/-- C10 witness: on content `"ab\ncd\ne"` with chunk size 3, the first
chunk `"ab\n"` lies before the last chunk and ends in a newline. -/
theorem C10_witness :
    endsWithNewline (CsvChunk.mk 1 ['a', 'b', '\n']).chunk_text = true :=
  C10_chunk_boundary ['a', 'b', '\n', 'c', 'd', '\n', 'e'] 3 (by decide)
    (CsvChunk.mk 1 ['a', 'b', '\n']) (by decide)

/-! ## Lemmas about retry_request -/

theorem retryLoop_cons_retriable (rd total idx : Nat) (o : AttemptOutcome)
    (ho : isRetriable o = true) (rest : List AttemptOutcome) :
    retryLoop rd total (o :: rest) idx =
      ⟨(retryLoop rd total rest (idx + 1)).result,
       (retryLoop rd total rest (idx + 1)).attemptsMade + 1,
       (if idx < total - 1 then [min (rd * 2 ^ idx) 10] else []) ++
         (retryLoop rd total rest (idx + 1)).sleeps⟩ := by
  cases o with
  | fault => rfl
  | resp s =>
    have hs : 500 ≤ s := by simpa [isRetriable] using ho
    simp only [retryLoop]
    rw [if_neg (by omega : ¬ s < 400), if_neg (by omega : ¬ s < 500)]

theorem rangeMapShift (rd idx n : Nat) :
    min (rd * 2 ^ idx) 10 ::
      (List.range n).map (fun i => min (rd * 2 ^ (idx + 1 + i)) 10) =
    (List.range (n + 1)).map (fun i => min (rd * 2 ^ (idx + i)) 10) := by
  rw [List.range_succ_eq_map]
  simp only [List.map_cons, List.map_map]
  congr 1
  symm
  apply List.map_congr_left
  intro i _
  simp only [Function.comp_apply]
  have hi : idx + (i + 1) = idx + 1 + i := by omega
  rw [hi]

theorem retryLoop_first_non_server (rd : Nat) (pre : List AttemptOutcome) :
    ∀ (s : Nat) (post : List AttemptOutcome) (idx total : Nat),
      (∀ o ∈ pre, isRetriable o = true) → s < 500 →
      idx + pre.length < total →
      retryLoop rd total (pre ++ .resp s :: post) idx =
        ⟨some s, pre.length + 1,
         (List.range pre.length).map (fun i => min (rd * 2 ^ (idx + i)) 10)⟩ := by
  induction pre with
  | nil =>
    intro s post idx total _ hs _
    by_cases h4 : s < 400
    · simp [retryLoop, h4]
    · simp [retryLoop, h4, hs]
  | cons o rest ih =>
    intro s post idx total hpre hs htot
    rw [List.cons_append,
      retryLoop_cons_retriable rd total idx o (hpre o (by simp)) _,
      ih s post (idx + 1) total (fun x hx => hpre x (by simp [hx])) hs
        (by simp only [List.length_cons] at htot ⊢; omega)]
    have hsl : idx < total - 1 := by
      simp only [List.length_cons] at htot
      omega
    rw [if_pos hsl]
    simp only [List.singleton_append, List.length_cons]
    rw [rangeMapShift]

theorem retryLoop_all_retriable (rd : Nat) (l : List AttemptOutcome) :
    ∀ (idx total : Nat), (∀ o ∈ l, isRetriable o = true) →
      idx + l.length = total →
      retryLoop rd total l idx =
        ⟨none, l.length,
         (List.range (l.length - 1)).map (fun i => min (rd * 2 ^ (idx + i)) 10)⟩ := by
  induction l with
  | nil => intro idx total _ _; simp [retryLoop]
  | cons o rest ih =>
    intro idx total h he
    rw [retryLoop_cons_retriable rd total idx o (h o (by simp)) rest,
      ih (idx + 1) total (fun x hx => h x (by simp [hx]))
        (by simp only [List.length_cons] at he ⊢; omega)]
    cases rest with
    | nil =>
      have hno : ¬ idx < total - 1 := by
        simp only [List.length_cons, List.length_nil] at he
        omega
      rw [if_neg hno]
      simp [retryLoop]
    | cons r rs =>
      have hyes : idx < total - 1 := by
        simp only [List.length_cons] at he
        omega
      rw [if_pos hyes]
      simp only [List.length_cons, Nat.add_sub_cancel, List.singleton_append]
      rw [rangeMapShift]

/-- C3: an attempt of `_retry_request` whose response status is below
400 returns that response at once; an attempt whose status is in
400-499 likewise returns that response immediately after that first
such attempt, performing no further attempts and no back-off sleep for
it (the only sleeps are those of the earlier retriable attempts). -/
theorem C3_request_classification (retryDelay : Nat)
    (pre : List AttemptOutcome) (s : Nat) (post : List AttemptOutcome)
    (hpre : ∀ o ∈ pre, isRetriable o = true) :
    (s < 400 →
      retry_request retryDelay (pre ++ .resp s :: post) =
        ⟨some s, pre.length + 1,
         (List.range pre.length).map (fun i => min (retryDelay * 2 ^ i) 10)⟩) ∧
    (400 ≤ s → s < 500 →
      retry_request retryDelay (pre ++ .resp s :: post) =
        ⟨some s, pre.length + 1,
         (List.range pre.length).map (fun i => min (retryDelay * 2 ^ i) 10)⟩) := by
  have hmain : ∀ hs : s < 500,
      retry_request retryDelay (pre ++ .resp s :: post) =
        ⟨some s, pre.length + 1,
         (List.range pre.length).map (fun i => min (retryDelay * 2 ^ i) 10)⟩ := by
    intro hs
    have := retryLoop_first_non_server retryDelay pre s post 0
      (pre ++ .resp s :: post).length hpre hs
      (by simp only [List.length_append, List.length_cons]; omega)
    simpa [retry_request] using this
  exact ⟨fun h4 => hmain (by omega), fun _ h5 => hmain h5⟩

/-- C3 witness: a 503 attempt followed by a 404 attempt: the 404 is
returned after exactly 2 attempts, the only sleep being the back-off of
the first attempt (`min(2 * 2 ** 0, 10) = 2`). -/
theorem C3_witness :
    retry_request 2 [.resp 503, .resp 404] = ⟨some 404, 2, [2]⟩ :=
  ((C3_request_classification 2 [.resp 503] 404 [] (by decide)).2
    (by decide) (by decide)).trans (by decide)

/-- C4: when every attempt fails with a server error (status at least
500) or a raised transport fault, `_retry_request` performs exactly
`max_retries` attempts, sleeping `min(retry_delay * 2 ** attempt, 10)`
between consecutive attempts (exponential growth capped at the fixed
ceiling 10), then returns the `None` sentinel; no exception propagates
(the model is a total function into a trace). -/
theorem C4_retry_exhaustion (retryDelay : Nat) (outcomes : List AttemptOutcome)
    (h : ∀ o ∈ outcomes, isRetriable o = true) :
    retry_request retryDelay outcomes =
      ⟨none, outcomes.length,
       (List.range (outcomes.length - 1)).map
         (fun i => min (retryDelay * 2 ^ i) 10)⟩ := by
  have := retryLoop_all_retriable retryDelay outcomes 0 outcomes.length h
    (Nat.zero_add _)
  simpa [retry_request] using this

/-- C4 witness: three failing attempts (500, fault, 503) with base delay
2 produce the sentinel after 3 attempts with sleeps `[2, 4]`. -/
theorem C4_witness :
    retry_request 2 [.resp 500, .fault, .resp 503] = ⟨none, 3, [2, 4]⟩ :=
  (C4_retry_exhaustion 2 [.resp 500, .fault, .resp 503] (by decide)).trans
    (by decide)

/-! ## Lemmas about upload_chunks -/

theorem upload_chunks_le (maxRetries : Nat) :
    ∀ chunks : List ChunkSpec,
      upload_chunks maxRetries chunks ≤ chunks.length := by
  intro chunks
  induction chunks with
  | nil => simp [upload_chunks]
  | cons c rest ih =>
    simp only [upload_chunks, List.length_cons]
    split <;> omega

theorem upload_chunks_all_ok (maxRetries : Nat) :
    ∀ chunks : List ChunkSpec,
      (∀ c ∈ chunks, c.nonempty = true ∧
        chunkUploadSucceeds maxRetries c.attempts = true) →
      upload_chunks maxRetries chunks = chunks.length := by
  intro chunks
  induction chunks with
  | nil => intro _; simp [upload_chunks]
  | cons c rest ih =>
    intro h
    obtain ⟨h1, h2⟩ := h c (by simp)
    simp only [upload_chunks, List.length_cons, h1, h2, Bool.and_self, if_pos]
    rw [ih (fun x hx => h x (by simp [hx]))]

theorem upload_chunks_lt_of_bad (maxRetries : Nat) :
    ∀ (chunks : List ChunkSpec) (c : ChunkSpec), c ∈ chunks →
      (c.nonempty && chunkUploadSucceeds maxRetries c.attempts) = false →
      upload_chunks maxRetries chunks < chunks.length := by
  intro chunks
  induction chunks with
  | nil => intro c hc; exact absurd hc (by simp)
  | cons x rest ih =>
    intro c hc hbad
    rcases List.mem_cons.mp hc with rfl | hmem
    · simp only [upload_chunks, List.length_cons, hbad, Bool.false_eq_true,
        if_false]
      have := upload_chunks_le maxRetries rest
      omega
    · have := ih c hmem hbad
      simp only [upload_chunks, List.length_cons]
      split <;> omega

/-- C5: `_upload_chunks` returns the number of chunks uploaded
successfully, at most the number of chunks produced; if every produced
chunk is non-empty and its transfer succeeds within the retry budget,
the count equals the total; if some chunk permanently fails, the loop
continues with the remaining chunks, no exception escapes (the model is
a total function), and the count is strictly below the total. -/
theorem C5_upload_partial_failure (maxRetries : Nat) (chunks : List ChunkSpec) :
    upload_chunks maxRetries chunks ≤ chunks.length ∧
    ((∀ c ∈ chunks, c.nonempty = true ∧
        chunkUploadSucceeds maxRetries c.attempts = true) →
      upload_chunks maxRetries chunks = chunks.length) ∧
    (∀ c ∈ chunks,
      (c.nonempty && chunkUploadSucceeds maxRetries c.attempts) = false →
      upload_chunks maxRetries chunks < chunks.length) :=
  ⟨upload_chunks_le maxRetries chunks,
   upload_chunks_all_ok maxRetries chunks,
   fun c hc hbad => upload_chunks_lt_of_bad maxRetries chunks c hc hbad⟩

/-- C5 witness: with budget 2, a chunk succeeding on its second attempt
uploads (count 1 = total on the single-chunk session), and adding a
permanently failing chunk gives a count strictly below the total 2. -/
theorem C5_witness :
    upload_chunks 2
        [⟨true, fun i => decide (i = 1)⟩, ⟨true, fun _ => false⟩] ≤ 2 ∧
    upload_chunks 2 [⟨true, fun i => decide (i = 1)⟩] = 1 ∧
    upload_chunks 2
        [⟨true, fun i => decide (i = 1)⟩, ⟨true, fun _ => false⟩] < 2 :=
  ⟨(C5_upload_partial_failure 2
      [⟨true, fun i => decide (i = 1)⟩, ⟨true, fun _ => false⟩]).1,
   (C5_upload_partial_failure 2 [⟨true, fun i => decide (i = 1)⟩]).2.1
     (by
       intro c hc
       rw [List.mem_singleton] at hc
       subst hc
       exact ⟨rfl, rfl⟩),
   (C5_upload_partial_failure 2
      [⟨true, fun i => decide (i = 1)⟩, ⟨true, fun _ => false⟩]).2.2
     ⟨true, fun _ => false⟩ (List.mem_cons_of_mem _ (List.mem_singleton.mpr rfl))
     rfl⟩

/-! ## Lemmas about monitor_processing_status -/

theorem monitorLoop_timedOut (interval maxWait : Nat) (stopSig : Nat → Bool)
    (script : Nat → ScriptResp) (dv : Bool) (vr : Option ValResp) (e : Nat)
    (fuel t polls sleeps : Nat) (h : maxWait ≤ t) :
    monitorLoop interval maxWait stopSig script dv vr e (fuel + 1) t polls sleeps =
      .timedOut polls sleeps := by
  simp only [monitorLoop]
  rw [if_neg (by omega)]

theorem monitorLoop_stop (interval maxWait : Nat) (stopSig : Nat → Bool)
    (script : Nat → ScriptResp) (dv : Bool) (vr : Option ValResp) (e : Nat)
    (fuel t polls sleeps : Nat) (ht : t < maxWait)
    (hs : stopSig polls = true) :
    monitorLoop interval maxWait stopSig script dv vr e (fuel + 1) t polls sleeps =
      .stopShort polls sleeps := by
  simp only [monitorLoop]
  rw [if_pos ht]
  simp [hs]

theorem monitorLoop_success (interval maxWait : Nat) (stopSig : Nat → Bool)
    (script : Nat → ScriptResp) (dv : Bool) (vr : Option ValResp) (e : Nat)
    (fuel t polls sleeps : Nat) (ht : t < maxWait)
    (hs : stopSig polls = false) (hsc : script polls = .ok .success) :
    monitorLoop interval maxWait stopSig script dv vr e (fuel + 1) t polls sleeps =
      .success (polls + 1) sleeps
        (if dv then some (validate_row_count vr e) else none) := by
  simp only [monitorLoop]
  rw [if_pos ht]
  simp only [hs, Bool.false_eq_true, if_false]
  rw [hsc]

theorem monitorLoop_failed (interval maxWait : Nat) (stopSig : Nat → Bool)
    (script : Nat → ScriptResp) (dv : Bool) (vr : Option ValResp) (e : Nat)
    (fuel t polls sleeps : Nat) (ht : t < maxWait)
    (hs : stopSig polls = false) (hsc : script polls = .ok .failed) :
    monitorLoop interval maxWait stopSig script dv vr e (fuel + 1) t polls sleeps =
      .failedStatus (polls + 1) sleeps := by
  simp only [monitorLoop]
  rw [if_pos ht]
  simp only [hs, Bool.false_eq_true, if_false]
  rw [hsc]

theorem monitorLoop_step (interval maxWait : Nat) (stopSig : Nat → Bool)
    (script : Nat → ScriptResp) (dv : Bool) (vr : Option ValResp) (e : Nat)
    (fuel t polls sleeps : Nat) (ht : t < maxWait)
    (hs : stopSig polls = false)
    (hnt : nonTerminalResp (script polls) = true) :
    monitorLoop interval maxWait stopSig script dv vr e (fuel + 1) t polls sleeps =
      monitorLoop interval maxWait stopSig script dv vr e fuel
        (t + interval) (polls + 1) (sleeps + 1) := by
  simp only [monitorLoop]
  rw [if_pos ht]
  simp only [hs, Bool.false_eq_true, if_false]
  cases hsp : script polls with
  | errResp => rfl
  | ok st =>
    rw [hsp] at hnt
    cases st <;> simp_all [nonTerminalResp]

theorem nonTerminalResp_of_ne (r : ScriptResp) (h1 : r ≠ .ok .success)
    (h2 : r ≠ .ok .failed) : nonTerminalResp r = true := by
  cases r with
  | errResp => rfl
  | ok st => cases st <;> simp_all [nonTerminalResp]

/-- C2 counterexample: with `pollInterval = 2` and `maxWait = 5` (which
is strictly smaller than `3 * pollInterval = 6`), the scripted sequence
`[pending, pending, success]` yields success after 3 polls and 2
sleeps, not a timeout, refuting the claim's timeout bound. -/
theorem C2_counterexample :
    monitor_processing_status 2 5 noStop scriptPPS false none 0 =
      .success 3 2 none ∧ 5 < 3 * 2 := by
  constructor
  · rfl
  · decide

/-- C2 (amended): for the scripted responses `[pending, pending,
success]` (with instantaneous requests), whenever `maxWait` exceeds
`2 * pollInterval` the poller returns terminal success after exactly 3
polls with a `pollInterval` sleep between consecutive polls (2 sleeps);
and for every `maxWait` of at most `2 * pollInterval` — not `3 *` as
claimed — it returns a timeout instead, after at most 2 polls. -/
theorem C2_poller_timing (interval maxWait : Nat) (hpos : 0 < interval) :
    (2 * interval < maxWait →
      monitor_processing_status interval maxWait noStop scriptPPS false none 0 =
        .success 3 2 none) ∧
    (maxWait ≤ 2 * interval →
      ∃ p s,
        monitor_processing_status interval maxWait noStop scriptPPS false none 0 =
          .timedOut p s ∧ p ≤ 2) := by
  constructor
  · intro h
    obtain ⟨m, rfl⟩ : ∃ m, maxWait = m + 3 := ⟨maxWait - 3, by omega⟩
    exact
      (monitorLoop_step interval (m + 3) noStop scriptPPS false none 0
          (m + 3) 0 0 0 (by omega) rfl rfl).trans
        ((monitorLoop_step interval (m + 3) noStop scriptPPS false none 0
            (m + 2) (0 + interval) 1 1 (by omega) rfl rfl).trans
          (monitorLoop_success interval (m + 3) noStop scriptPPS false none 0
            (m + 1) (0 + interval + interval) 2 2 (by omega) rfl rfl))
  · intro h
    rcases Nat.eq_zero_or_pos maxWait with rfl | hmw
    · exact ⟨0, 0,
        monitorLoop_timedOut interval 0 noStop scriptPPS false none 0
          0 0 0 0 (by omega), by omega⟩
    · by_cases hi : maxWait ≤ interval
      · obtain ⟨w, rfl⟩ : ∃ w, maxWait = w + 1 := ⟨maxWait - 1, by omega⟩
        refine ⟨1, 1, ?_, by omega⟩
        exact
          (monitorLoop_step interval (w + 1) noStop scriptPPS false none 0
              (w + 1) 0 0 0 (by omega) rfl rfl).trans
            (monitorLoop_timedOut interval (w + 1) noStop scriptPPS false none 0
              w (0 + interval) 1 1 (by omega))
      · obtain ⟨w, rfl⟩ : ∃ w, maxWait = w + 2 := ⟨maxWait - 2, by omega⟩
        refine ⟨2, 2, ?_, by omega⟩
        exact
          (monitorLoop_step interval (w + 2) noStop scriptPPS false none 0
              (w + 2) 0 0 0 (by omega) rfl rfl).trans
            ((monitorLoop_step interval (w + 2) noStop scriptPPS false none 0
                (w + 1) (0 + interval) 1 1 (by omega) rfl rfl).trans
              (monitorLoop_timedOut interval (w + 2) noStop scriptPPS false none 0
                w (0 + interval + interval) 2 2 (by omega)))

/-- C2 witness: the amended theorem at `pollInterval = 2`: `maxWait = 5`
gives success after 3 polls and 2 sleeps, and `maxWait = 4 = 2 *
pollInterval` gives a timeout. -/
theorem C2_witness :
    monitor_processing_status 2 5 noStop scriptPPS false none 0 =
      .success 3 2 none ∧
    (∃ p s,
      monitor_processing_status 2 4 noStop scriptPPS false none 0 =
        .timedOut p s ∧ p ≤ 2) :=
  ⟨(C2_poller_timing 2 5 (by decide)).1 (by decide),
   (C2_poller_timing 2 4 (by decide)).2 (by decide)⟩

theorem monitorLoop_stopShort_aux (interval maxWait : Nat)
    (stopSig : Nat → Bool) (script : Nat → ScriptResp) (dv : Bool)
    (vr : Option ValResp) (e : Nat) :
    ∀ (k fuel t polls sleeps : Nat),
      k + 1 ≤ fuel → t + interval * k < maxWait →
      (∀ j, j < k → stopSig (polls + j) = false) →
      (∀ j, j < k → nonTerminalResp (script (polls + j)) = true) →
      stopSig (polls + k) = true →
      monitorLoop interval maxWait stopSig script dv vr e fuel t polls sleeps =
        .stopShort (polls + k) (sleeps + k) := by
  intro k
  induction k with
  | zero =>
    intro fuel t polls sleeps hf ht _ _ hstop
    obtain ⟨f, rfl⟩ : ∃ f, fuel = f + 1 := ⟨fuel - 1, by omega⟩
    rw [monitorLoop_stop interval maxWait stopSig script dv vr e f t polls sleeps
      (by omega) hstop]
    simp
  | succ k ih =>
    intro fuel t polls sleeps hf ht h0 hnt hstop
    obtain ⟨f, rfl⟩ : ∃ f, fuel = f + 1 := ⟨fuel - 1, by omega⟩
    rw [Nat.mul_succ] at ht
    rw [monitorLoop_step interval maxWait stopSig script dv vr e f t polls sleeps
      (by omega) (h0 0 (by omega)) (hnt 0 (by omega))]
    have hrec := ih f (t + interval) (polls + 1) (sleeps + 1) (by omega) (by omega)
      (fun j hj => by
        have he : polls + 1 + j = polls + (j + 1) := by omega
        rw [he]
        exact h0 (j + 1) (by omega))
      (fun j hj => by
        have he : polls + 1 + j = polls + (j + 1) := by omega
        rw [he]
        exact hnt (j + 1) (by omega))
      (by
        have he : polls + 1 + k = polls + (k + 1) := by omega
        rw [he]
        exact hstop)
    rw [hrec]
    congr 1 <;> omega

/-- C8: if the global stop signal `stop_manager.is_stop_called()` is set
at the start of the loop iteration following `k` polls (and was unset at
every earlier iteration, which were all non-terminal and within the wait
budget), `_monitor_processing_status` returns the failure result at that
iteration: exactly `k` status requests and `k` sleeps were performed,
and no further request or sleep happens. -/
theorem C8_stop_short_circuit (interval maxWait k : Nat)
    (stopSig : Nat → Bool) (script : Nat → ScriptResp) (dv : Bool)
    (vr : Option ValResp) (e : Nat)
    (hpos : 0 < interval)
    (hbefore : ∀ j, j < k → stopSig j = false)
    (hnt : ∀ j, j < k → nonTerminalResp (script j) = true)
    (hk : stopSig k = true)
    (hreach : interval * k < maxWait) :
    monitor_processing_status interval maxWait stopSig script dv vr e =
      .stopShort k k := by
  have hkk : k ≤ interval * k := Nat.le_mul_of_pos_left k hpos
  have := monitorLoop_stopShort_aux interval maxWait stopSig script dv vr e k
    (maxWait + 1) 0 0 0 (by omega) (by omega)
    (fun j hj => by rw [Nat.zero_add]; exact hbefore j hj)
    (fun j hj => by rw [Nat.zero_add]; exact hnt j hj)
    (by rw [Nat.zero_add]; exact hk)
  simpa [monitor_processing_status] using this

/-- C8 witness: with a stop signal first observed at the third loop
iteration, an always-pending script, `pollInterval = 1` and
`maxWait = 10`, polling stops with the failure result after exactly 2
polls and 2 sleeps. -/
theorem C8_witness :
    monitor_processing_status 1 10 (fun n => decide (2 ≤ n))
      (fun _ => .ok .pending) false none 0 = .stopShort 2 2 :=
  C8_stop_short_circuit 1 10 2 (fun n => decide (2 ≤ n))
    (fun _ => .ok .pending) false none 0 (by decide)
    (fun j hj => by
      simp only [decide_eq_false_iff_not]
      omega)
    (fun j _ => rfl) (by decide) (by decide)

theorem monitorLoop_stripVal (interval maxWait : Nat) (stopSig : Nat → Bool)
    (script : Nat → ScriptResp) (v1 v2 : Option ValResp) (e1 e2 : Nat) :
    ∀ (fuel t polls sleeps : Nat),
      stripVal (monitorLoop interval maxWait stopSig script true v1 e1
        fuel t polls sleeps) =
      stripVal (monitorLoop interval maxWait stopSig script true v2 e2
        fuel t polls sleeps) := by
  intro fuel
  induction fuel with
  | zero => intro t polls sleeps; rfl
  | succ f ih =>
    intro t polls sleeps
    by_cases ht : t < maxWait
    · by_cases hs : stopSig polls = true
      · rw [monitorLoop_stop interval maxWait stopSig script true v1 e1
            f t polls sleeps ht hs,
          monitorLoop_stop interval maxWait stopSig script true v2 e2
            f t polls sleeps ht hs]
      · have hs' : stopSig polls = false := by
          cases hsv : stopSig polls
          · rfl
          · exact absurd hsv hs
        by_cases hsucc : script polls = .ok .success
        · rw [monitorLoop_success interval maxWait stopSig script true v1 e1
              f t polls sleeps ht hs' hsucc,
            monitorLoop_success interval maxWait stopSig script true v2 e2
              f t polls sleeps ht hs' hsucc]
          rfl
        · by_cases hfail : script polls = .ok .failed
          · rw [monitorLoop_failed interval maxWait stopSig script true v1 e1
                f t polls sleeps ht hs' hfail,
              monitorLoop_failed interval maxWait stopSig script true v2 e2
                f t polls sleeps ht hs' hfail]
          · have hnt := nonTerminalResp_of_ne (script polls) hsucc hfail
            rw [monitorLoop_step interval maxWait stopSig script true v1 e1
                f t polls sleeps ht hs' hnt,
              monitorLoop_step interval maxWait stopSig script true v2 e2
                f t polls sleeps ht hs' hnt]
            exact ih (t + interval) (polls + 1) (sleeps + 1)
    · rw [monitorLoop_timedOut interval maxWait stopSig script true v1 e1
          f t polls sleeps (by omega),
        monitorLoop_timedOut interval maxWait stopSig script true v2 e2
          f t polls sleeps (by omega)]

theorem monitorLoop_val_recorded (interval maxWait : Nat)
    (stopSig : Nat → Bool) (script : Nat → ScriptResp) (vr : Option ValResp)
    (e : Nat) :
    ∀ (fuel t polls sleeps p s : Nat) (vv : Option Bool),
      monitorLoop interval maxWait stopSig script true vr e
        fuel t polls sleeps = .success p s vv →
      vv = some (validate_row_count vr e) := by
  intro fuel
  induction fuel with
  | zero =>
    intro t polls sleeps p s vv h
    exact absurd h (by simp [monitorLoop])
  | succ f ih =>
    intro t polls sleeps p s vv h
    by_cases ht : t < maxWait
    · by_cases hs : stopSig polls = true
      · rw [monitorLoop_stop interval maxWait stopSig script true vr e
            f t polls sleeps ht hs] at h
        exact absurd h (by simp)
      · have hs' : stopSig polls = false := by
          cases hsv : stopSig polls
          · rfl
          · exact absurd hsv hs
        by_cases hsucc : script polls = .ok .success
        · rw [monitorLoop_success interval maxWait stopSig script true vr e
              f t polls sleeps ht hs' hsucc] at h
          simp only [MonOutcome.success.injEq, if_pos] at h
          exact h.2.2.symm
        · by_cases hfail : script polls = .ok .failed
          · rw [monitorLoop_failed interval maxWait stopSig script true vr e
                f t polls sleeps ht hs' hfail] at h
            exact absurd h (by simp)
          · have hnt := nonTerminalResp_of_ne (script polls) hsucc hfail
            rw [monitorLoop_step interval maxWait stopSig script true vr e
                f t polls sleeps ht hs' hnt] at h
            exact ih (t + interval) (polls + 1) (sleeps + 1) p s vv h
    · rw [monitorLoop_timedOut interval maxWait stopSig script true vr e
          f t polls sleeps (by omega)] at h
      exact absurd h (by simp)

/-- C9: when the terminal status is success and the row-count validation
is performed (`doValidate = true`), the poller's result — the returned
success flag and the numbers of polls and sleeps — is identical for
every validation response and expected count (in particular whether the
counted rows match or not); the mismatch is recorded only through the
validation-result field, which always equals `_validate_row_count`'s
result. -/
theorem C9_validation_nonfatal (interval maxWait : Nat)
    (stopSig : Nat → Bool) (script : Nat → ScriptResp)
    (v1 v2 : Option ValResp) (e1 e2 : Nat) :
    stripVal (monitor_processing_status interval maxWait stopSig script
        true v1 e1) =
      stripVal (monitor_processing_status interval maxWait stopSig script
        true v2 e2) ∧
    (∀ (p s : Nat) (vv : Option Bool),
      monitor_processing_status interval maxWait stopSig script true v1 e1 =
        .success p s vv →
      vv = some (validate_row_count v1 e1)) :=
  ⟨monitorLoop_stripVal interval maxWait stopSig script v1 v2 e1 e2
     (maxWait + 1) 0 0 0,
   fun p s vv h =>
     monitorLoop_val_recorded interval maxWait stopSig script v1 e1
       (maxWait + 1) 0 0 0 p s vv h⟩

/-- C9 witness: a run of `[pending, pending, success]` with a
mismatching validation response (5 rows counted, 7 expected) produces
the same stripped outcome as a matching one (7 counted), and the
recorded validation result is exactly `_validate_row_count`'s output
(`false` for the mismatch). -/
theorem C9_witness :
    stripVal (monitor_processing_status 1 10 noStop scriptPPS true
        (some ⟨200, some 5⟩) 7) =
      stripVal (monitor_processing_status 1 10 noStop scriptPPS true
        (some ⟨200, some 7⟩) 7) ∧
    some false = some (validate_row_count (some ⟨200, some 5⟩) 7) :=
  ⟨(C9_validation_nonfatal 1 10 noStop scriptPPS (some ⟨200, some 5⟩)
      (some ⟨200, some 7⟩) 7 7).1,
   (C9_validation_nonfatal 1 10 noStop scriptPPS (some ⟨200, some 5⟩)
      (some ⟨200, some 7⟩) 7 7).2 3 2 (some false) (by rfl)⟩

/-! ## Lemmas about DashboardPool -/

/-- C7: `get_random` returns `None` exactly when no artifact has been
published yet; any value it returns is the URL of some previously
published entry, whatever the random draw; and `wait_until_available`
returns `True` immediately, with zero sleeps, whenever the pool is
already non-empty at the first check. -/
theorem C7_pool_reads (pool : List DashEntry) (k : Nat)
    (poolAt : Nat → List DashEntry) (timeLimit : Nat) :
    (get_random pool k = none ↔ pool = []) ∧
    (∀ u, get_random pool k = some u → u ∈ pool.map DashEntry.url) ∧
    (poolAt 0 ≠ [] → wait_until_available poolAt timeLimit = (true, 0)) := by
  refine ⟨?_, ?_, ?_⟩
  · cases pool with
    | nil => simp [get_random]
    | cons a rest =>
      have hlt : k % (a :: rest).length < (a :: rest).length :=
        Nat.mod_lt _ (by simp)
      simp [get_random, List.get?_eq_getElem?, List.getElem?_eq_getElem hlt,
        Nat.mod_lt]
  · intro u h
    rcases Option.map_eq_some'.mp h with ⟨entry, hget, hu⟩
    exact List.mem_map.mpr ⟨entry, List.get?_mem hget, hu⟩
  · intro h
    have hp : has_dashboards (poolAt 0) = true := by
      simp only [has_dashboards, decide_eq_true_eq, List.length_pos]
      exact h
    simp [wait_until_available, wait_until_available_loop, hp]

/-- C7 witness: with two published entries, the draw with index 5
returns the published URL `"u2"`; and with one entry already present,
waiting returns true after zero sleeps. -/
theorem C7_witness :
    "u2" ∈ ([⟨"u1", "o1", 0⟩, ⟨"u2", "o2", 1⟩] : List DashEntry).map
      DashEntry.url ∧
    wait_until_available (fun _ => [⟨"u1", "o1", 0⟩]) 600 = (true, 0) :=
  ⟨(C7_pool_reads [⟨"u1", "o1", 0⟩, ⟨"u2", "o2", 1⟩] 5
      (fun _ => [⟨"u1", "o1", 0⟩]) 600).2.1 "u2" (by rfl),
   (C7_pool_reads [⟨"u1", "o1", 0⟩, ⟨"u2", "o2", 1⟩] 5
      (fun _ => [⟨"u1", "o1", 0⟩]) 600).2.2 (by decide)⟩
